import Mathlib

set_option maxRecDepth 16384

/-!
Verification of the configuration-patching logic of `start_services.py`.

The script's text manipulation is embedded shallowly: file contents are
`List Char`, line lists are `List (List Char)`, and the Python string
primitives used by the script (`in`, `find`, `replace`, `strip`,
`lstrip`, `startswith`, `split`) are modelled as executable functions on
character lists.  External command invocations (git, docker, openssl,
sed) are modelled by their observable outcomes.
-/

namespace StartServices

/-! ### Python string primitives on `List Char` -/

/-- Python `str.strip()` whitespace set (ASCII part, which is all the
script's inputs use). -/
def pyIsSpace (c : Char) : Bool :=
  c == ' ' || c == '\t' || c == '\n' || c == '\r' || c == '\x0b' || c == '\x0c'

/-- Python `str.lstrip()`. -/
def pyLstrip (l : List Char) : List Char := l.dropWhile pyIsSpace

/-- Python `str.strip()`. -/
def pyStrip (l : List Char) : List Char :=
  ((l.dropWhile pyIsSpace).reverse.dropWhile pyIsSpace).reverse

/-- `len(line) - len(line.lstrip())`, the indentation computation at
lines 202 and 208 of `start_services.py`. -/
def indentOf (l : List Char) : Nat := l.length - (pyLstrip l).length

/-- `line.strip().startswith('#')` (lines 214, 217). -/
def startsHash (l : List Char) : Bool :=
  match pyStrip l with
  | [] => false
  | c :: _ => c == '#'

/-- `pat` is a prefix of `s` (the leading comparison underlying Python's
`find`/`in`/`startswith`). -/
def leadsWith : List Char → List Char → Bool
  | [], _ => true
  | _ :: _, [] => false
  | p :: ps, c :: t => p == c && leadsWith ps t

/-- Python `pat in s` (substring containment). -/
def hasSub : List Char → List Char → Bool
  | pat, [] => leadsWith pat []
  | pat, c :: t => leadsWith pat (c :: t) || hasSub pat t

/-- Python `s.find(pat)`: index of the leftmost occurrence, `none` for
Python's `-1`. -/
def findSub : List Char → List Char → Option Nat
  | pat, [] => if leadsWith pat [] then some 0 else none
  | pat, c :: t =>
    if leadsWith pat (c :: t) then some 0
    else (findSub pat t).map (· + 1)

/-- Python `s.find(pat, start)` with `0 ≤ start` (the script only passes
nonnegative starts on the paths that reach a second `find`). -/
def findFrom (pat s : List Char) (start : Nat) : Option Nat :=
  (findSub pat (s.drop start)).map (· + start)

/-- Python `s.split('\n')` (always returns at least one segment). -/
def splitNl : List Char → List (List Char)
  | [] => [[]]
  | c :: t =>
    let r := splitNl t
    if c == '\n' then [] :: r
    else (c :: r.headD []) :: r.tail

/-- Fuel-indexed worker for `replaceAll`: leftmost, non-overlapping
global substitution of the non-empty pattern `p :: ps` by `rep`,
continuing after the replaced span (the semantics of Python
`str.replace` and of `sed s|pat|rep|g` for patterns without newlines).
The fuel only serves structural termination; any fuel at least the
input length gives the same result (`replaceAllFuel_congr`). -/
def replaceAllFuel (p : Char) (ps rep : List Char) : Nat → List Char → List Char
  | _, [] => []
  | 0, s => s
  | n + 1, c :: t =>
    if leadsWith (p :: ps) (c :: t) then
      rep ++ replaceAllFuel p ps rep n (t.drop ps.length)
    else
      c :: replaceAllFuel p ps rep n t

/-- Global substitution of the non-empty pattern `p :: ps` by `rep`. -/
def replaceAllGo (p : Char) (ps rep s : List Char) : List Char :=
  replaceAllFuel p ps rep s.length s

/-- Python `s.replace(pat, rep)` / `sed s|pat|rep|g`.  The script only
ever substitutes non-empty literal patterns; the empty-pattern case is
totalised as the identity. -/
def replaceAll (pat rep s : List Char) : List Char :=
  match pat with
  | [] => s
  | p :: ps => replaceAllGo p ps rep s

/-! ### Literal strings of `start_services.py` -/

/-- The placeholder token substituted by `generate_searxng_secret_key`
(lines 112, 121, 129). -/
def placeholderL : List Char := "ultrasecretkey".toList

/-- Lowercase hexadecimal alphabet: the output alphabet of
`openssl rand -hex 32` and of the PowerShell `"{0:x2}" -f` format. -/
def isHexCh (c : Char) : Bool := "0123456789abcdef".toList.contains c

/-- `"searxng:"`, the service start marker (line 200). -/
def searxngHdrL : List Char := "searxng:".toList

/-- `"cap_drop:"` (lines 214, 225, 241). -/
def capDropActiveL : List Char := "cap_drop:".toList

/-- `"- ALL"` (lines 217, 227, 244). -/
def dashAllActiveL : List Char := "- ALL".toList

/-- The annotation suffix appended when commenting out (lines 225, 227). -/
def toggleAnnotL : List Char := " # Temporarily commented out for first run".toList

/-- `"# cap_drop: # Temporarily commented out for first run"`
(lines 225, 240-241). -/
def capDropCommentedL : List Char :=
  "# cap_drop: # Temporarily commented out for first run".toList

/-- `"# - ALL # Temporarily commented out for first run"`
(lines 227, 243-244). -/
def dashAllCommentedL : List Char :=
  "# - ALL # Temporarily commented out for first run".toList

/-- `"found"`, the probe-output test string (line 180). -/
def foundL : List Char := "found".toList

/-- Obsolete authenticated endpoint path (line 283). -/
def oldPathL : List Char := "/api/tenants/realtime-dev/health".toList

/-- `"healthcheck"` trigger word, without colon (line 283). -/
def hcWordL : List Char := "healthcheck".toList

/-- `"healthcheck:"` marker searched at line 287. -/
def hcColonL : List Char := "healthcheck:".toList

/-- `"realtime-dev.supabase-realtime"` service token (lines 283, 287). -/
def rtNameL : List Char := "realtime-dev.supabase-realtime".toList

/-- `"environment:"` marker searched at line 288. -/
def envL : List Char := "environment:".toList

/-- The fixed corrected health-check block (lines 296-311). -/
def newHealthcheckL : List Char :=
  ("healthcheck:\n" ++
   "      test:\n" ++
   "        [\n" ++
   "          \"CMD\",\n" ++
   "          \"curl\",\n" ++
   "          \"-sSfL\",\n" ++
   "          \"--head\",\n" ++
   "          \"-o\",\n" ++
   "          \"/dev/null\",\n" ++
   "          \"http://localhost:4000/\"\n" ++
   "        ]\n" ++
   "      timeout: 5s\n" ++
   "      interval: 5s\n" ++
   "      retries: 3\n").toList

/-! ### Secret provisioning (`generate_searxng_secret_key`, lines 73-143)

`base`/`settings` are the contents of `searxng/settings-base.yml` and
`searxng/settings.yml` (`none` = file absent); `key` is the freshly
generated hex token.  This is the success path: command failures are
modelled separately in `generate_searxng_secret_key_outcome` below. -/

/-- Pure content-level model of `generate_searxng_secret_key`: if the
base template is missing, warn and return (lines 82-84); otherwise copy
the template when `settings.yml` is absent (lines 87-94) and globally
substitute the placeholder with the generated key (lines 104-130). -/
def generate_searxng_secret_key (base settings : Option (List Char))
    (key : List Char) : Option (List Char) :=
  match base with
  | none => settings
  | some b =>
    let s0 := match settings with
      | none => b
      | some s => s
    some (replaceAll placeholderL key s0)

/-! ### First-run classification (lines 158-189) -/

/-- Outcome of a `subprocess` invocation: an exception anywhere in the
probing block (caught at line 188), or captured stdout. -/
inductive CmdOut where
  | raises : CmdOut
  | out : List Char → CmdOut

/-- Stdout of the exec probe
`sh -c "[ -f /etc/searxng/uwsgi.ini ] && echo 'found' || echo 'not_found'"`
(line 176) as a function of whether the marker file is present. -/
def uwsgiProbeOutput (markerPresent : Bool) : List Char :=
  if markerPresent then "found\n".toList else "not_found\n".toList

/-- The first-run classification of
`check_and_fix_docker_compose_for_searxng` (lines 158-189): `ps` is the
outcome of `docker ps --filter name=searxng` (line 163), `probe` the
outcome of the exec probe (line 175).  Returns `is_first_run`. -/
def classify_searxng_first_run (ps probe : CmdOut) : Bool :=
  match ps with
  | .raises => true
  | .out psOut =>
    let names := splitNl (pyStrip psOut)
    if names.any (fun n => !n.isEmpty) then
      match probe with
      | .raises => true
      | .out probeOut => if hasSub foundL probeOut then false else true
    else true

/-! ### Compose hardening toggle (lines 191-251) -/

/-- First pass of `check_and_fix_docker_compose_for_searxng`
(lines 192-219): scan for the SearXNG section and the active `cap_drop`
pair, tracking `(index, in_searxng_section, searxng_section_indent,
cap_drop_line_index)`; returns
`(cap_drop_line_index, cap_drop_value_line_index)`. -/
def scanCapAux : List (List Char) → Nat → Bool → Nat → Option Nat →
    Option Nat × Option Nat
  | [], _, _, _, capIdx => (capIdx, none)
  | l :: rest, i, inSec, secInd, capIdx =>
    if hasSub searxngHdrL l && !inSec then
      scanCapAux rest (i + 1) true (indentOf l) capIdx
    else if inSec then
      if pyStrip l ≠ [] ∧ indentOf l ≤ secInd then
        scanCapAux rest (i + 1) false secInd capIdx
      else if hasSub capDropActiveL l && !startsHash l then
        scanCapAux rest (i + 1) true secInd (some i)
      else if capIdx.isSome && (hasSub dashAllActiveL l && !startsHash l) then
        (capIdx, some i)
      else
        scanCapAux rest (i + 1) true secInd capIdx
    else
      scanCapAux rest (i + 1) false secInd capIdx

/-- First-pass scan started from the initial state of lines 192-195. -/
def scanCap (lines : List (List Char)) : Option Nat × Option Nat :=
  scanCapAux lines 0 false 0 none

/-- One iteration of the not-first-run uncomment loop (lines 239-245):
returns the (possibly) rewritten line and the two found flags. -/
def uncommentLine (l : List Char) : List Char × Bool × Bool :=
  if hasSub capDropCommentedL l then
    (replaceAll capDropCommentedL capDropActiveL l, true, false)
  else if hasSub dashAllCommentedL l then
    (replaceAll dashAllCommentedL dashAllActiveL l, false, true)
  else (l, false, false)

/-- The not-first-run uncomment loop over all lines (lines 236-245),
accumulating `commented_cap_drop_found` / `commented_all_found`. -/
def uncommentPass : List (List Char) → List (List Char) × Bool × Bool
  | [] => ([], false, false)
  | l :: rest =>
    let a := uncommentLine l
    let b := uncommentPass rest
    (a.1 :: b.1, a.2.1 || b.2.1, a.2.2 || b.2.2)

/-- The file-patching part of `check_and_fix_docker_compose_for_searxng`
(lines 191-251), with the classification computed by
`classify_searxng_first_run` passed in.  Returns the new line list and
whether the file was written back (lines 229-231, 249-251). -/
def check_and_fix_docker_compose_for_searxng (is_first_run : Bool)
    (lines : List (List Char)) : List (List Char) × Bool :=
  if is_first_run then
    match scanCap lines with
    | (some ci, some vi) =>
      let lines1 := lines.set ci
        (replaceAll capDropActiveL capDropCommentedL (lines.getD ci []))
      let lines2 := lines1.set vi
        (replaceAll dashAllActiveL dashAllCommentedL (lines1.getD vi []))
      (lines2, true)
    | _ => (lines, false)
  else
    match uncommentPass lines with
    | (ls, fc, fa) => if fc || fa then (ls, true) else (lines, false)

/-! ### Realtime health-check rewriter (`fix_supabase_realtime_healthcheck`,
lines 256-329) -/

/-- The three trigger substrings test (line 283). -/
def hasTriggers (content : List Char) : Bool :=
  hasSub oldPathL content && hasSub hcWordL content && hasSub rtNameL content

/-- Marker location (lines 287-290):
`healthcheck_start = content.find('healthcheck:',
content.find('realtime-dev.supabase-realtime'))` and
`environment_start = content.find('environment:', healthcheck_start)`;
`none` models the `-1` cases rejected by the guard at line 290. -/
def locateSpan (content : List Char) : Option (Nat × Nat) :=
  (findSub rtNameL content).bind fun n0 =>
    (findFrom hcColonL content n0).bind fun h =>
      (findFrom envL content h).map fun e => (h, e)

/-- `fix_supabase_realtime_healthcheck` (lines 256-329) on the compose
file content; the Bool records whether the file was written back
(line 317).  When the span is located, Python's
`content.replace(healthcheck_section, new_healthcheck)` substitutes
every occurrence of the extracted span text (line 314). -/
def fix_supabase_realtime_healthcheck (content : List Char) :
    List Char × Bool :=
  if hasTriggers content then
    match locateSpan content with
    | some (h, e) =>
      (replaceAll ((content.drop h).take (e - h)) newHealthcheckL content, true)
    | none => (content, false)
  else (content, false)

/-! ### `main` sequencing and error propagation (lines 331-357) -/

/-- Steps of `main` in execution order. -/
inductive Step where
  | cloneRepo | prepareEnv | genSecret | capToggle | healthFix
  | stopContainers | startSupabase | waitSleep | startLocalAI
deriving DecidableEq, Repr

/-- Uncaught exceptions that can abort the run. -/
inductive RunErr where
  | cmdFailed | fileNotFound
deriving DecidableEq, Repr

/-- Environment facts determining which external commands succeed. -/
structure World where
  cloneFails : Bool
  rootEnvExists : Bool
  settingsBaseExists : Bool
  secretCmdFails : Bool
  downFails : Bool
  upSupabaseFails : Bool
  upLocalFails : Bool
deriving DecidableEq

/-- Outcome of `generate_searxng_secret_key` as a step of `main`:
`(uncaught error, substitution applied)`.  A missing template warns and
returns (lines 82-84); a failing secret-generation command raises
`CalledProcessError`, which the `except Exception` handler at lines
134-143 catches (printing remediation instructions), so no exception
ever propagates out of this function. -/
def generate_searxng_secret_key_outcome (w : World) : Option RunErr × Bool :=
  if !w.settingsBaseExists then (none, false)
  else if w.secretCmdFails then (none, false)
  else (none, true)

/-- `main` (lines 331-357) as a trace semantics: the list of steps that
ran to completion, and the uncaught exception (if any) that aborted the
run.  `clone_supabase_repo` uses `run_command` with `check=True` and no
handler, so a git failure propagates; `prepare_supabase_env` calls
`shutil.copyfile(".env", ...)` with no handler (lines 42-47), so a
missing root `.env` raises `FileNotFoundError`;
`check_and_fix_docker_compose_for_searxng` and
`fix_supabase_realtime_healthcheck` wrap their whole bodies in
`try/except` (lines 152-254, 277-329) and never raise; the three
orchestration commands (lines 49-71) propagate failures. -/
def runMain (w : World) : List Step × Option RunErr :=
  if w.cloneFails then ([], some .cmdFailed)
  else if !w.rootEnvExists then ([.cloneRepo], some .fileNotFound)
  else
    match (generate_searxng_secret_key_outcome w).1 with
    | some e => ([.cloneRepo, .prepareEnv], some e)
    | none =>
      if w.downFails then
        ([.cloneRepo, .prepareEnv, .genSecret, .capToggle, .healthFix],
         some .cmdFailed)
      else if w.upSupabaseFails then
        ([.cloneRepo, .prepareEnv, .genSecret, .capToggle, .healthFix,
          .stopContainers], some .cmdFailed)
      else if w.upLocalFails then
        ([.cloneRepo, .prepareEnv, .genSecret, .capToggle, .healthFix,
          .stopContainers, .startSupabase, .waitSleep], some .cmdFailed)
      else
        ([.cloneRepo, .prepareEnv, .genSecret, .capToggle, .healthFix,
          .stopContainers, .startSupabase, .waitSleep, .startLocalAI], none)

/-! ### Basic lemmas about the string primitives -/

theorem leadsWith_nil (s : List Char) : leadsWith [] s = true := by
  cases s <;> rfl

theorem leadsWith_append_self : ∀ (x y : List Char), leadsWith x (x ++ y) = true
  | [], y => leadsWith_nil y
  | p :: ps, y => by simp [leadsWith, leadsWith_append_self ps y]

theorem eq_append_drop_of_leadsWith :
    ∀ (x s : List Char), leadsWith x s = true → s = x ++ s.drop x.length
  | [], s, _ => by simp
  | _ :: _, [], h => by simp [leadsWith] at h
  | p :: ps, c :: t, h => by
    simp only [leadsWith, Bool.and_eq_true, beq_iff_eq] at h
    obtain ⟨rfl, h2⟩ := h
    simp only [List.cons_append, List.length_cons, List.drop_succ_cons]
    exact congrArg _ (eq_append_drop_of_leadsWith ps t h2)

theorem mem_of_leadsWith :
    ∀ (x s : List Char), leadsWith x s = true → ∀ c ∈ x, c ∈ s
  | [], _, _, c, hc => by simp at hc
  | _ :: _, [], h, _, _ => by simp [leadsWith] at h
  | p :: ps, b :: t, h, c, hc => by
    simp only [leadsWith, Bool.and_eq_true, beq_iff_eq] at h
    obtain ⟨rfl, h2⟩ := h
    rcases List.mem_cons.mp hc with rfl | hc
    · exact List.mem_cons_self _ _
    · exact List.mem_cons_of_mem _ (mem_of_leadsWith ps t h2 c hc)

theorem leadsWith_append_of_le :
    ∀ (x y z : List Char), x.length ≤ y.length →
      leadsWith x (y ++ z) = leadsWith x y
  | [], y, z, _ => by rw [leadsWith_nil, leadsWith_nil]
  | _ :: _, [], _, h => by simp at h
  | p :: ps, c :: t, z, h => by
    simp only [List.cons_append, leadsWith]
    exact congrArg (fun b => p == c && b)
      (leadsWith_append_of_le ps t z (by simpa using h))

theorem leadsWith_take : ∀ (m : Nat) (s : List Char), leadsWith (s.take m) s = true
  | 0, s => by simp [leadsWith_nil]
  | _ + 1, [] => rfl
  | m + 1, c :: t => by
    simp [List.take_succ_cons, leadsWith, leadsWith_take m t]

theorem hasSub_cons (pat : List Char) (c : Char) (t : List Char) :
    hasSub pat (c :: t) = (leadsWith pat (c :: t) || hasSub pat t) := rfl

theorem hasSub_of_tail (pat : List Char) (c : Char) (t : List Char)
    (h : hasSub pat t = true) : hasSub pat (c :: t) = true := by
  rw [hasSub_cons, h, Bool.or_true]

theorem hasSub_append_self : ∀ (r x : List Char), hasSub r (r ++ x) = true
  | [], [] => rfl
  | [], _ :: _ => by simp [hasSub, leadsWith]
  | p :: ps, x => by
    show hasSub (p :: ps) (p :: (ps ++ x)) = true
    rw [hasSub_cons]
    have h : leadsWith (p :: ps) ((p :: ps) ++ x) = true := leadsWith_append_self _ _
    simp only [List.cons_append] at h
    simp [h]

theorem hasSub_drop_take : ∀ (s : List Char) (n m : Nat),
    hasSub ((s.drop n).take m) s = true
  | [], _, _ => by simp [hasSub, leadsWith_nil]
  | c :: t, 0, m => by
    rw [List.drop_zero, hasSub_cons, leadsWith_take m (c :: t), Bool.true_or]
  | c :: t, n + 1, m => by
    rw [List.drop_succ_cons]
    exact hasSub_of_tail _ c t (hasSub_drop_take t n m)

/-! ### Lemmas about `replaceAll` -/

theorem replaceAllFuel_nil (p : Char) (ps rep : List Char) (n : Nat) :
    replaceAllFuel p ps rep n [] = [] := by
  cases n <;> rfl

theorem replaceAllFuel_cons_succ (p : Char) (ps rep : List Char) (n : Nat)
    (c : Char) (t : List Char) :
    replaceAllFuel p ps rep (n + 1) (c :: t) =
      if leadsWith (p :: ps) (c :: t) = true then
        rep ++ replaceAllFuel p ps rep n (t.drop ps.length)
      else
        c :: replaceAllFuel p ps rep n t := rfl

/-- The fuel is irrelevant once it covers the input length. -/
theorem replaceAllFuel_congr (p : Char) (ps rep : List Char) :
    ∀ (n m : Nat) (s : List Char), s.length ≤ n → s.length ≤ m →
      replaceAllFuel p ps rep n s = replaceAllFuel p ps rep m s := by
  intro n
  induction n with
  | zero =>
    intro m s hn _
    have hnil : s = [] := List.length_eq_zero.mp (Nat.le_zero.mp hn)
    subst hnil
    rw [replaceAllFuel_nil, replaceAllFuel_nil]
  | succ k ih =>
    intro m s hn hm
    match s with
    | [] => rw [replaceAllFuel_nil, replaceAllFuel_nil]
    | c :: t =>
      cases m with
      | zero => simp at hm
      | succ m2 =>
        rw [replaceAllFuel_cons_succ, replaceAllFuel_cons_succ]
        simp only [List.length_cons] at hn hm
        by_cases hl : leadsWith (p :: ps) (c :: t) = true
        · rw [if_pos hl, if_pos hl]
          have hd : (t.drop ps.length).length ≤ k := by
            rw [List.length_drop]; omega
          have hd2 : (t.drop ps.length).length ≤ m2 := by
            rw [List.length_drop]; omega
          rw [ih m2 (t.drop ps.length) hd hd2]
        · rw [if_neg hl, if_neg hl, ih m2 t (by omega) (by omega)]

theorem replaceAllGo_nil (p : Char) (ps rep : List Char) :
    replaceAllGo p ps rep [] = [] := rfl

theorem replaceAllGo_cons_pos (p : Char) (ps rep : List Char) (c : Char)
    (t : List Char) (h : leadsWith (p :: ps) (c :: t) = true) :
    replaceAllGo p ps rep (c :: t) =
      rep ++ replaceAllGo p ps rep (t.drop ps.length) := by
  show replaceAllFuel p ps rep (c :: t).length (c :: t)
    = rep ++ replaceAllFuel p ps rep (t.drop ps.length).length (t.drop ps.length)
  rw [List.length_cons, replaceAllFuel_cons_succ, if_pos h]
  rw [replaceAllFuel_congr p ps rep t.length (t.drop ps.length).length
    (t.drop ps.length) (by rw [List.length_drop]; omega) (Nat.le_refl _)]

theorem replaceAllGo_cons_neg (p : Char) (ps rep : List Char) (c : Char)
    (t : List Char) (h : leadsWith (p :: ps) (c :: t) = false) :
    replaceAllGo p ps rep (c :: t) = c :: replaceAllGo p ps rep t := by
  show replaceAllFuel p ps rep (c :: t).length (c :: t)
    = c :: replaceAllFuel p ps rep t.length t
  rw [List.length_cons, replaceAllFuel_cons_succ, if_neg (by simp [h])]

theorem replaceAllGo_of_not_hasSub (p : Char) (ps rep : List Char) :
    ∀ s, hasSub (p :: ps) s = false → replaceAllGo p ps rep s = s
  | [], _ => replaceAllGo_nil p ps rep
  | c :: t, h => by
    rw [hasSub_cons, Bool.or_eq_false_iff] at h
    rw [replaceAllGo_cons_neg p ps rep c t h.1,
      replaceAllGo_of_not_hasSub p ps rep t h.2]

/-- If the placeholder is absent, global substitution is the identity. -/
theorem replaceAll_of_not_hasSub (pat rep s : List Char)
    (h : hasSub pat s = false) : replaceAll pat rep s = s := by
  match pat with
  | [] => rfl
  | p :: ps => exact replaceAllGo_of_not_hasSub p ps rep s h

theorem hasSub_rep_replaceAllGo (p : Char) (ps rep : List Char) :
    ∀ s, hasSub (p :: ps) s = true → hasSub rep (replaceAllGo p ps rep s) = true
  | [], h => by simp [hasSub, leadsWith] at h
  | c :: t, h => by
    cases hl : leadsWith (p :: ps) (c :: t) with
    | true =>
      rw [replaceAllGo_cons_pos p ps rep c t hl]
      exact hasSub_append_self rep _
    | false =>
      rw [replaceAllGo_cons_neg p ps rep c t hl]
      have ht : hasSub (p :: ps) t = true := by
        rw [hasSub_cons, hl, Bool.false_or] at h
        exact h
      exact hasSub_of_tail rep c _ (hasSub_rep_replaceAllGo p ps rep t ht)

/-- After a successful substitution, the replacement text occurs in the
output. -/
theorem hasSub_rep_replaceAll (pat rep s : List Char) (hne : pat ≠ [])
    (h : hasSub pat s = true) : hasSub rep (replaceAll pat rep s) = true := by
  match pat with
  | [] => exact absurd rfl hne
  | p :: ps => exact hasSub_rep_replaceAllGo p ps rep s h

/-! ### No occurrence of the pattern survives substitution

Key combinatorial facts about `replaceAll pat rep`: when no character of
`rep` equals the pattern's first character, when `rep` is at least as
long as the pattern, and when no suffix of the pattern is a prefix of
`rep`, the output contains no occurrence of the pattern at all. -/

theorem hasSub_block_append (p : Char) (ps : List Char) :
    ∀ (r x : List Char), (∀ c ∈ r, c ≠ p) →
      hasSub (p :: ps) (r ++ x) = hasSub (p :: ps) x
  | [], x, _ => by rw [List.nil_append]
  | c :: t, x, hr => by
    rw [List.cons_append, hasSub_cons]
    have h1 : leadsWith (p :: ps) (c :: (t ++ x)) = false := by
      have hpc : (p == c) = false :=
        beq_eq_false_iff_ne.mpr fun he => hr c (List.mem_cons_self c t) he.symm
      simp [leadsWith, hpc]
    rw [h1, Bool.false_or]
    exact hasSub_block_append p ps t x fun d hd => hr d (List.mem_cons_of_mem c hd)

theorem no_suffix_match_replaceAllGo (p : Char) (ps r : List Char)
    (hB : (p :: ps).length ≤ r.length)
    (hC : ∀ k, k < (p :: ps).length → leadsWith ((p :: ps).drop k) r = false) :
    ∀ (n : Nat) (t : List Char), t.length ≤ n → ∀ k, 1 ≤ k →
      (hk2 : k < (p :: ps).length) →
      leadsWith ((p :: ps).drop k) t = false →
      leadsWith ((p :: ps).drop k) (replaceAllGo p ps r t) = false := by
  intro n
  induction n with
  | zero =>
    intro t ht k _ _ hlt
    have hnil : t = [] := List.length_eq_zero.mp (Nat.le_zero.mp ht)
    subst hnil
    rw [replaceAllGo_nil]
    exact hlt
  | succ m ih =>
    intro t ht k hk1 hk2 hlt
    match t with
    | [] =>
      rw [replaceAllGo_nil]
      exact hlt
    | c :: t2 =>
      cases hl : leadsWith (p :: ps) (c :: t2) with
      | true =>
        rw [replaceAllGo_cons_pos p ps r c t2 hl,
          leadsWith_append_of_le _ _ _ (by rw [List.length_drop]; omega)]
        exact hC k hk2
      | false =>
        rw [replaceAllGo_cons_neg p ps r c t2 hl]
        have hdrop : (p :: ps).drop k = (p :: ps)[k] :: (p :: ps).drop (k + 1) :=
          List.drop_eq_getElem_cons hk2
        by_cases hc : (p :: ps)[k] = c
        · by_cases hk3 : k + 1 < (p :: ps).length
          · have h2 : leadsWith ((p :: ps).drop (k + 1)) t2 = false := by
              rw [hdrop] at hlt
              simpa [leadsWith, hc] using hlt
            have ht2 : t2.length ≤ m := by
              simp only [List.length_cons] at ht
              omega
            have hrec := ih t2 ht2 (k + 1) (by omega) hk3 h2
            rw [List.drop_succ_cons] at hrec
            rw [hdrop]
            simp [leadsWith, hc, hrec]
          · have hnil : (p :: ps).drop (k + 1) = [] :=
              List.drop_of_length_le (by omega)
            rw [hdrop, hnil] at hlt
            simp [leadsWith, hc, leadsWith_nil] at hlt
        · rw [hdrop]
          simp [leadsWith, hc]

theorem hasSub_replaceAllGo_eq_false (p : Char) (ps r : List Char)
    (hA : ∀ c ∈ r, c ≠ p)
    (hB : (p :: ps).length ≤ r.length)
    (hC : ∀ k, k < (p :: ps).length → leadsWith ((p :: ps).drop k) r = false) :
    ∀ (n : Nat) (t : List Char), t.length ≤ n →
      hasSub (p :: ps) (replaceAllGo p ps r t) = false := by
  intro n
  induction n with
  | zero =>
    intro t ht
    have hnil : t = [] := List.length_eq_zero.mp (Nat.le_zero.mp ht)
    subst hnil
    rw [replaceAllGo_nil]
    rfl
  | succ m ih =>
    intro t ht
    match t with
    | [] =>
      rw [replaceAllGo_nil]
      rfl
    | c :: t2 =>
      cases hl : leadsWith (p :: ps) (c :: t2) with
      | true =>
        rw [replaceAllGo_cons_pos p ps r c t2 hl,
          hasSub_block_append p ps r _ hA]
        refine ih (t2.drop ps.length) ?_
        simp only [List.length_cons] at ht
        rw [List.length_drop]
        omega
      | false =>
        rw [replaceAllGo_cons_neg p ps r c t2 hl, hasSub_cons]
        have ht2 : t2.length ≤ m := by
          simp only [List.length_cons] at ht
          omega
        have h2 := ih t2 ht2
        by_cases hc : p = c
        · subst hc
          have hps : leadsWith ps t2 = false := by
            simpa [leadsWith] using hl
          match ps, hB, hC, h2, hps with
          | [], _, _, _, hps =>
            rw [leadsWith_nil] at hps
            exact absurd hps (by simp)
          | q :: qs, hB, hC, h2, hps =>
            have hrec := no_suffix_match_replaceAllGo p (q :: qs) r hB hC
              t2.length t2 (Nat.le_refl _) 1 (Nat.le_refl _) (by simp) hps
            rw [List.drop_one, List.tail_cons] at hrec
            simp [leadsWith, hrec, h2]
        · simp [leadsWith, hc, h2]

/-- Lowercase-hex strings contain no character of relevance to the
placeholder's boundary analysis. -/
theorem isHexCh_ne {c : Char} (h : isHexCh c = true) : c ≠ 'u' ∧ c ≠ 'y' := by
  constructor <;> intro he <;> rw [he] at h <;> exact absurd h (by decide)

/-- Substituting a lowercase-hex string of length at least 14 for
`"ultrasecretkey"` leaves no occurrence of `"ultrasecretkey"`. -/
theorem hasSub_placeholder_after (r s : List Char)
    (hr : r.all isHexCh = true) (hlen : 14 ≤ r.length) :
    hasSub placeholderL (replaceAll placeholderL r s) = false := by
  have hplc : placeholderL = 'u' :: "ltrasecretkey".toList := by decide
  have hA : ∀ c ∈ r, c ≠ 'u' := fun c hc =>
    (isHexCh_ne (List.all_eq_true.mp hr c hc)).1
  have hC : ∀ k, k < placeholderL.length →
      leadsWith (placeholderL.drop k) r = false := by
    intro k hk
    cases hlw : leadsWith (placeholderL.drop k) r with
    | false => rfl
    | true =>
      exfalso
      have hall : ∀ j, j < 14 → 'y' ∈ placeholderL.drop j := by decide
      have hy : 'y' ∈ placeholderL.drop k := by
        apply hall
        have hpl : placeholderL.length = 14 := by decide
        omega
      have hyr : 'y' ∈ r := mem_of_leadsWith _ _ hlw 'y' hy
      exact (isHexCh_ne (List.all_eq_true.mp hr 'y' hyr)).2 rfl
  have hB : placeholderL.length ≤ r.length := by
    have hpl : placeholderL.length = 14 := by decide
    omega
  rw [hplc] at hC hB ⊢
  exact hasSub_replaceAllGo_eq_false 'u' _ r hA hB hC s.length s (Nat.le_refl _)

/-! ### Claim C1 (first-run classification) -/

/-- C1: evaluation of the first-run classification (lines 158-189).  The
first four conjuncts match the claim: a probe raising an error, an empty
container list, an exec-probe error, and a present marker file are
classified exactly as the claim says.  The last conjunct exhibits the
divergence on the claim's remaining leg: with a running `searxng`
container and the marker file absent, the probe prints `not_found`, and
because line 180 tests the substring `"found" in stdout` — and
`"found"` is a substring of `"not_found"` — the code classifies the
invocation as not-first-run, while the claim (and the message in the
code's own line-184 branch) says this case must be classified
first-run. -/
theorem classify_first_run_marker_absent :
    classify_searxng_first_run .raises (.out (uwsgiProbeOutput false)) = true ∧
    classify_searxng_first_run (.out "".toList) (.out (uwsgiProbeOutput false)) = true ∧
    classify_searxng_first_run (.out "searxng\n".toList) .raises = true ∧
    classify_searxng_first_run (.out "searxng\n".toList)
      (.out (uwsgiProbeOutput true)) = false ∧
    classify_searxng_first_run (.out "searxng\n".toList)
      (.out (uwsgiProbeOutput false)) = false := by
  decide

/-! ### Claim C2 (secret provisioning end-to-end) -/

/-- C2: for a base template that exists and contains the placeholder
`ultrasecretkey`, provisioning with a freshly generated 64-character
lowercase-hex key yields a settings file (created from the template when
it was absent) equal to the global substitution of the key for the
placeholder, and zero occurrences of the placeholder remain. -/
theorem generate_secret_key_provisions (b : List Char)
    (settings : Option (List Char)) (key : List Char)
    (_htpl : hasSub placeholderL b = true)
    (hk : key.all isHexCh = true) (hlen : key.length = 64) :
    generate_searxng_secret_key (some b) settings key
      = some (replaceAll placeholderL key (settings.getD b)) ∧
    hasSub placeholderL (replaceAll placeholderL key (settings.getD b)) = false := by
  refine ⟨?_, hasSub_placeholder_after key _ hk (by omega)⟩
  cases settings <;> rfl

/-- Witness for C2 at a concrete template and the all-zero hex key. -/
theorem generate_secret_key_provisions_witness :
    hasSub placeholderL "secret_key: ultrasecretkey".toList = true ∧
    (List.replicate 64 '0').all isHexCh = true ∧
    (List.replicate 64 '0').length = 64 ∧
    (generate_searxng_secret_key (some "secret_key: ultrasecretkey".toList)
        none (List.replicate 64 '0')
      = some (replaceAll placeholderL (List.replicate 64 '0')
          ((none : Option (List Char)).getD "secret_key: ultrasecretkey".toList)) ∧
     hasSub placeholderL (replaceAll placeholderL (List.replicate 64 '0')
        ((none : Option (List Char)).getD "secret_key: ultrasecretkey".toList)) = false) :=
  ⟨by decide, by decide, by decide,
   generate_secret_key_provisions _ none _ (by decide) (by decide) (by decide)⟩

/-! ### Claim C6 (secret provisioning idempotent) -/

/-- C6: if the placeholder is already absent from the existing settings
file, re-running the provisioning step leaves the file byte-for-byte
unchanged — substituting a no-longer-present token is a no-op. -/
theorem secret_provision_idempotent (b s key : List Char)
    (h : hasSub placeholderL s = false) :
    generate_searxng_secret_key (some b) (some s) key = some s := by
  show some (replaceAll placeholderL key s) = some s
  rw [replaceAll_of_not_hasSub placeholderL key s h]

/-- Witness for C6 at a concrete already-provisioned settings file. -/
theorem secret_provision_idempotent_witness :
    hasSub placeholderL "secret_key: 0f3a9b".toList = false ∧
    generate_searxng_secret_key (some "secret_key: ultrasecretkey".toList)
        (some "secret_key: 0f3a9b".toList) "ffff".toList
      = some "secret_key: 0f3a9b".toList :=
  ⟨by decide, secret_provision_idempotent _ _ _ (by decide)⟩

/-! ### Round trip of the comment/uncomment substitutions

The first-run transition replaces every occurrence of an active
directive `a` by the commented form `'#' :: ' ' :: (a ++ q)` (where `q`
is the annotation suffix), and the not-first-run transition replaces the
commented form back by `a`.  When no character of `a` is `'#'`, the
second substitution exactly inverts the first on every line. -/

theorem comment_suffix_no_match (p : Char) (ps q : List Char)
    (hhash : ∀ c ∈ p :: ps, c ≠ '#') :
    ∀ (t : List Char) (j : Nat), j < (p :: ps).length →
      leadsWith ((p :: ps).drop j) t = false →
      leadsWith ((p :: ps).drop j ++ q)
        (replaceAllGo p ps ('#' :: ' ' :: ((p :: ps) ++ q)) t) = false
  | [], j, hj, _ => by
    rw [replaceAllGo_nil, List.drop_eq_getElem_cons hj]
    simp [leadsWith]
  | c :: t2, j, hj, hlt => by
    have hdrop : (p :: ps).drop j = (p :: ps)[j] :: (p :: ps).drop (j + 1) :=
      List.drop_eq_getElem_cons hj
    have hmem : (p :: ps)[j] ∈ p :: ps := List.getElem_mem hj
    cases hl : leadsWith (p :: ps) (c :: t2) with
    | true =>
      rw [replaceAllGo_cons_pos _ _ _ _ _ hl, hdrop]
      have hne : ((p :: ps)[j] == '#') = false :=
        beq_eq_false_iff_ne.mpr (hhash _ hmem)
      simp [leadsWith, hne]
    | false =>
      rw [replaceAllGo_cons_neg _ _ _ _ _ hl, hdrop]
      by_cases hc : (p :: ps)[j] = c
      · by_cases hj2 : j + 1 < (p :: ps).length
        · have h2 : leadsWith ((p :: ps).drop (j + 1)) t2 = false := by
            rw [hdrop] at hlt
            simpa [leadsWith, hc] using hlt
          have hrec := comment_suffix_no_match p ps q hhash t2 (j + 1) hj2 h2
          simp only [List.drop_succ_cons, List.cons_append] at hrec
          simp [leadsWith, hc, hrec]
        · have hnil : (p :: ps).drop (j + 1) = [] :=
            List.drop_of_length_le (by omega)
          rw [hdrop, hnil] at hlt
          simp [leadsWith, hc, leadsWith_nil] at hlt
      · simp [leadsWith, hc]

theorem comment_body_no_match (p : Char) (ps q : List Char)
    (hhash : ∀ c ∈ p :: ps, c ≠ '#') :
    ∀ (t : List Char),
      leadsWith ((p :: ps) ++ q)
        (replaceAllGo p ps ('#' :: ' ' :: ((p :: ps) ++ q)) t) = false
  | [] => by
    rw [replaceAllGo_nil]
    simp [leadsWith]
  | c :: t2 => by
    cases hl : leadsWith (p :: ps) (c :: t2) with
    | true =>
      rw [replaceAllGo_cons_pos _ _ _ _ _ hl]
      have hne : (p == '#') = false :=
        beq_eq_false_iff_ne.mpr (hhash p (List.mem_cons_self p ps))
      simp [leadsWith, hne]
    | false =>
      rw [replaceAllGo_cons_neg _ _ _ _ _ hl]
      by_cases hc : p = c
      · subst hc
        have hps : leadsWith ps t2 = false := by
          simpa [leadsWith] using hl
        match ps, hhash, hps with
        | [], _, hps =>
          rw [leadsWith_nil] at hps
          exact absurd hps (by simp)
        | q2 :: qs, hhash, hps =>
          have hrec := comment_suffix_no_match p (q2 :: qs) q hhash t2 1
            (by simp) (by simpa using hps)
          rw [List.drop_one, List.tail_cons] at hrec
          simp only [List.cons_append] at hrec
          simp [leadsWith, hrec]
      · simp [leadsWith, hc]

theorem comment_match_recovers (p : Char) (ps q : List Char)
    (hhash : ∀ c ∈ p :: ps, c ≠ '#') :
    ∀ (u : List Char),
      leadsWith ('#' :: ' ' :: ((p :: ps) ++ q))
        (replaceAllGo p ps ('#' :: ' ' :: ((p :: ps) ++ q)) u) = true →
      leadsWith (p :: ps) u = true
  | [], h => by
    rw [replaceAllGo_nil] at h
    simp [leadsWith] at h
  | c :: t, h => by
    cases hl : leadsWith (p :: ps) (c :: t) with
    | true => rfl
    | false =>
      exfalso
      rw [replaceAllGo_cons_neg _ _ _ _ _ hl] at h
      simp only [leadsWith, Bool.and_eq_true, beq_iff_eq] at h
      obtain ⟨rfl, h2⟩ := h
      match t, h2 with
      | [], h2 => rw [replaceAllGo_nil] at h2; simp [leadsWith] at h2
      | d :: t2, h2 =>
        cases hl2 : leadsWith (p :: ps) (d :: t2) with
        | true =>
          rw [replaceAllGo_cons_pos _ _ _ _ _ hl2] at h2
          simp [leadsWith] at h2
        | false =>
          rw [replaceAllGo_cons_neg _ _ _ _ _ hl2] at h2
          simp only [leadsWith, Bool.and_eq_true, beq_iff_eq] at h2
          obtain ⟨rfl, h3⟩ := h2
          rw [comment_body_no_match p ps q hhash t2] at h3
          exact absurd h3 (by simp)

theorem replaceAll_comment_roundtrip_aux (p : Char) (ps q : List Char)
    (hhash : ∀ c ∈ p :: ps, c ≠ '#') :
    ∀ (n : Nat) (l : List Char), l.length ≤ n →
      replaceAllGo '#' (' ' :: ((p :: ps) ++ q)) (p :: ps)
        (replaceAllGo p ps ('#' :: ' ' :: ((p :: ps) ++ q)) l) = l := by
  intro n
  induction n with
  | zero =>
    intro l hl
    have hnil : l = [] := List.length_eq_zero.mp (Nat.le_zero.mp hl)
    subst hnil
    rw [replaceAllGo_nil, replaceAllGo_nil]
  | succ m ih =>
    intro l hlen
    match l with
    | [] => rw [replaceAllGo_nil, replaceAllGo_nil]
    | c :: t =>
      cases hl : leadsWith (p :: ps) (c :: t) with
      | true =>
        rw [replaceAllGo_cons_pos _ _ _ _ _ hl]
        have hsplit : ('#' :: ' ' :: ((p :: ps) ++ q))
            ++ replaceAllGo p ps ('#' :: ' ' :: ((p :: ps) ++ q)) (t.drop ps.length)
            = '#' :: ((' ' :: ((p :: ps) ++ q))
              ++ replaceAllGo p ps ('#' :: ' ' :: ((p :: ps) ++ q))
                  (t.drop ps.length)) := rfl
        rw [hsplit]
        have hlead : leadsWith ('#' :: ' ' :: ((p :: ps) ++ q))
            ('#' :: ((' ' :: ((p :: ps) ++ q))
              ++ replaceAllGo p ps ('#' :: ' ' :: ((p :: ps) ++ q))
                  (t.drop ps.length))) = true := by
          have h0 := leadsWith_append_self ('#' :: ' ' :: ((p :: ps) ++ q))
            (replaceAllGo p ps ('#' :: ' ' :: ((p :: ps) ++ q)) (t.drop ps.length))
          simpa using h0
        rw [replaceAllGo_cons_pos _ _ _ _ _ hlead]
        rw [List.drop_left (' ' :: ((p :: ps) ++ q))
          (replaceAllGo p ps ('#' :: ' ' :: ((p :: ps) ++ q)) (t.drop ps.length))]
        have hrest : (t.drop ps.length).length ≤ m := by
          simp only [List.length_cons] at hlen
          rw [List.length_drop]
          omega
        rw [ih (t.drop ps.length) hrest]
        have heq := eq_append_drop_of_leadsWith (p :: ps) (c :: t) hl
        simp only [List.length_cons, List.drop_succ_cons] at heq
        exact heq.symm
      | false =>
        rw [replaceAllGo_cons_neg _ _ _ _ _ hl]
        have hnb : leadsWith ('#' :: ' ' :: ((p :: ps) ++ q))
            (c :: replaceAllGo p ps ('#' :: ' ' :: ((p :: ps) ++ q)) t) = false := by
          cases hx : leadsWith ('#' :: ' ' :: ((p :: ps) ++ q))
              (c :: replaceAllGo p ps ('#' :: ' ' :: ((p :: ps) ++ q)) t) with
          | false => rfl
          | true =>
            exfalso
            have := comment_match_recovers p ps q hhash (c :: t)
              (by rw [replaceAllGo_cons_neg _ _ _ _ _ hl]; exact hx)
            rw [this] at hl
            exact absurd hl (by simp)
        rw [replaceAllGo_cons_neg _ _ _ _ _ hnb]
        have ht : t.length ≤ m := by
          simp only [List.length_cons] at hlen
          omega
        rw [ih t ht]

/-- Commenting out (replace `a` by `'#' :: ' ' :: (a ++ q)`) followed by
uncommenting (replace `'#' :: ' ' :: (a ++ q)` by `a`) restores any line
exactly, provided `a` is non-empty and `'#'`-free. -/
theorem replaceAll_comment_roundtrip (a q l : List Char) (ha : a ≠ [])
    (hhash : ∀ c ∈ a, c ≠ '#') :
    replaceAll ('#' :: ' ' :: (a ++ q)) a
      (replaceAll a ('#' :: ' ' :: (a ++ q)) l) = l := by
  match a, ha, hhash with
  | p :: ps, _, hhash =>
    exact replaceAll_comment_roundtrip_aux p ps q hhash l.length l (Nat.le_refl _)

/-! ### Claim C4 (cap_drop toggle round trip) -/

/-- C4: for a pair of lines holding the active hardening directive (a
line containing `cap_drop:` and a line containing `- ALL`, neither
comment-started), applying the first-run transition (lines 225 and 227)
and then the not-first-run transition (lines 241 and 244) restores both
lines character for character. -/
theorem cap_drop_round_trip (l1 l2 : List Char)
    (_h1 : hasSub capDropActiveL l1 = true) (_h2 : startsHash l1 = false)
    (_h3 : hasSub dashAllActiveL l2 = true) (_h4 : startsHash l2 = false) :
    replaceAll capDropCommentedL capDropActiveL
      (replaceAll capDropActiveL capDropCommentedL l1) = l1 ∧
    replaceAll dashAllCommentedL dashAllActiveL
      (replaceAll dashAllActiveL dashAllCommentedL l2) = l2 := by
  have e1 : capDropCommentedL = '#' :: ' ' :: (capDropActiveL ++ toggleAnnotL) := by
    decide
  have e2 : dashAllCommentedL = '#' :: ' ' :: (dashAllActiveL ++ toggleAnnotL) := by
    decide
  rw [e1, e2]
  exact ⟨replaceAll_comment_roundtrip _ _ l1 (by decide) (by decide),
    replaceAll_comment_roundtrip _ _ l2 (by decide) (by decide)⟩

/-- Witness for C4 at the two concrete directive lines of a typical
compose file. -/
theorem cap_drop_round_trip_witness :
    hasSub capDropActiveL "    cap_drop:\n".toList = true ∧
    startsHash "    cap_drop:\n".toList = false ∧
    hasSub dashAllActiveL "      - ALL\n".toList = true ∧
    startsHash "      - ALL\n".toList = false ∧
    (replaceAll capDropCommentedL capDropActiveL
        (replaceAll capDropActiveL capDropCommentedL "    cap_drop:\n".toList)
      = "    cap_drop:\n".toList ∧
     replaceAll dashAllCommentedL dashAllActiveL
        (replaceAll dashAllActiveL dashAllCommentedL "      - ALL\n".toList)
      = "      - ALL\n".toList) :=
  ⟨by decide, by decide, by decide, by decide,
   cap_drop_round_trip _ _ (by decide) (by decide) (by decide) (by decide)⟩

/-! ### Claims C7 and C10 (hardening toggle: no-op and frame) -/

/-- If every line containing an active `cap_drop:` is comment-started,
the first-pass scan never records an index. -/
theorem scanCapAux_none (ls : List (List Char)) :
    ∀ (i : Nat) (inSec : Bool) (secInd : Nat),
      (∀ l ∈ ls, hasSub capDropActiveL l = true → startsHash l = true) →
      scanCapAux ls i inSec secInd none = (none, none) := by
  induction ls with
  | nil => intro i inSec secInd _; rfl
  | cons l rest ih =>
    intro i inSec secInd h
    have hrest : ∀ l2 ∈ rest, hasSub capDropActiveL l2 = true →
        startsHash l2 = true :=
      fun l2 hl2 => h l2 (List.mem_cons_of_mem l hl2)
    have hcap : (hasSub capDropActiveL l && !startsHash l) = false := by
      cases hc : hasSub capDropActiveL l with
      | false => rfl
      | true => rw [h l (List.mem_cons_self l rest) hc]; rfl
    rw [scanCapAux]
    split
    · exact ih _ _ _ hrest
    · split
      · split
        · exact ih _ _ _ hrest
        · split
          · next hcond =>
            rw [hcap] at hcond
            exact absurd hcond (by simp)
          · split
            · next hcond =>
              simp at hcond
            · exact ih _ _ _ hrest
      · exact ih _ _ _ hrest

/-- If no line carries a commented marker, the uncomment loop is the
identity and both found flags stay false. -/
theorem uncommentPass_id (ls : List (List Char))
    (h : ∀ l ∈ ls, hasSub capDropCommentedL l = false ∧
      hasSub dashAllCommentedL l = false) :
    uncommentPass ls = (ls, false, false) := by
  induction ls with
  | nil => rfl
  | cons l rest ih =>
    have h1 := h l (List.mem_cons_self l rest)
    have hline : uncommentLine l = (l, false, false) := by
      rw [uncommentLine]
      simp [h1.1, h1.2]
    have hrest := ih fun l2 hl2 => h l2 (List.mem_cons_of_mem l hl2)
    rw [uncommentPass, hline, hrest]
    rfl

/-- C7: for a compose file whose hardening directive is already in the
state matching the computed classification — every line containing the
active `cap_drop:` key is comment-started when first-run, and no line
carries a commented marker when not-first-run — the toggle step changes
no lines and performs no file write. -/
theorem toggle_noop_when_state_matches (is_first_run : Bool)
    (lines : List (List Char))
    (hcom : is_first_run = true →
      ∀ l ∈ lines, hasSub capDropActiveL l = true → startsHash l = true)
    (hact : is_first_run = false →
      ∀ l ∈ lines, hasSub capDropCommentedL l = false ∧
        hasSub dashAllCommentedL l = false) :
    check_and_fix_docker_compose_for_searxng is_first_run lines
      = (lines, false) := by
  cases is_first_run with
  | true =>
    have hscan : scanCap lines = (none, none) :=
      scanCapAux_none lines 0 false 0 (hcom rfl)
    rw [check_and_fix_docker_compose_for_searxng]
    simp [hscan]
  | false =>
    have hpass := uncommentPass_id lines (hact rfl)
    rw [check_and_fix_docker_compose_for_searxng]
    simp [hpass]

/-- Witness for C7 on a concrete file in commented state under a
first-run classification. -/
theorem toggle_noop_when_state_matches_witness :
    (∀ l ∈ ["  searxng:".toList, "    # cap_drop:".toList,
        "    #   - ALL".toList],
      hasSub capDropActiveL l = true → startsHash l = true) ∧
    check_and_fix_docker_compose_for_searxng true
        ["  searxng:".toList, "    # cap_drop:".toList, "    #   - ALL".toList]
      = (["  searxng:".toList, "    # cap_drop:".toList,
          "    #   - ALL".toList], false) :=
  ⟨by decide,
   toggle_noop_when_state_matches true _ (fun _ => by decide)
     (fun hf => absurd hf (by decide))⟩

/-- `List.set` at one index leaves `getD` at any other index unchanged. -/
theorem getD_set_ne : ∀ (l : List (List Char)) (i j : Nat) (a : List Char),
    i ≠ j → (l.set i a).getD j [] = l.getD j []
  | [], _, _, _, _ => rfl
  | x :: xs, 0, j, a, hij =>
    match j, hij with
    | 0, hij => absurd rfl hij
    | _ + 1, _ => rfl
  | x :: xs, i2 + 1, j, a, hij =>
    match j with
    | 0 => rfl
    | j2 + 1 => getD_set_ne xs i2 j2 a fun he => hij (by rw [he])

/-- C10 (amended): in the first-run transition, when the scan locates
the index pair `(ci, vi)` — an uncommented `cap_drop:` line of the
service block (the last one the scan saw, not necessarily the first)
and the first subsequent uncommented `- ALL` line — only lines `ci`
and `vi` are modified: the line count is preserved and every other
line is written back byte-identical. -/
theorem first_run_modifies_at_most_two (lines : List (List Char))
    (ci vi : Nat) (h : scanCap lines = (some ci, some vi)) :
    (check_and_fix_docker_compose_for_searxng true lines).1.length
      = lines.length ∧
    ∀ j, j ≠ ci → j ≠ vi →
      (check_and_fix_docker_compose_for_searxng true lines).1.getD j []
        = lines.getD j [] := by
  have hfix : check_and_fix_docker_compose_for_searxng true lines
      = ((lines.set ci
          (replaceAll capDropActiveL capDropCommentedL (lines.getD ci []))).set vi
          (replaceAll dashAllActiveL dashAllCommentedL
            ((lines.set ci (replaceAll capDropActiveL capDropCommentedL
              (lines.getD ci []))).getD vi [])), true) := by
    rw [check_and_fix_docker_compose_for_searxng]
    simp [h]
  rw [hfix]
  refine ⟨by simp, ?_⟩
  intro j hj1 hj2
  rw [getD_set_ne _ _ _ _ fun he => hj2 he.symm,
    getD_set_ne _ _ _ _ fun he => hj1 he.symm]

/-- Witness for C10 on a concrete three-line block, checking the line
before the block is untouched. -/
theorem first_run_modifies_at_most_two_witness :
    scanCap ["  searxng:".toList, "    cap_drop:".toList,
        "      - ALL".toList] = (some 1, some 2) ∧
    (check_and_fix_docker_compose_for_searxng true
        ["  searxng:".toList, "    cap_drop:".toList,
         "      - ALL".toList]).1.length = 3 ∧
    (check_and_fix_docker_compose_for_searxng true
        ["  searxng:".toList, "    cap_drop:".toList,
         "      - ALL".toList]).1.getD 0 [] = "  searxng:".toList :=
  ⟨by decide,
   by
    have hlen := (first_run_modifies_at_most_two
      ["  searxng:".toList, "    cap_drop:".toList, "      - ALL".toList]
      1 2 (by decide)).1
    simpa using hlen,
   (first_run_modifies_at_most_two
      ["  searxng:".toList, "    cap_drop:".toList, "      - ALL".toList]
      1 2 (by decide)).2 0 (by decide) (by decide)⟩

/-- The compose lines of the C10 counterexample: the searxng block holds
two active `cap_drop:` lines before the first active value line. -/
def capTwiceLines : List (List Char) :=
  ["services:".toList, "  searxng:".toList, "    cap_drop:".toList,
   "    cap_drop:".toList, "      - ALL".toList]

/-- C10 counterexample: on `capTwiceLines` the first uncommented
`cap_drop:` line of the block (index 2) is written back unchanged,
while line 3 — which the claim says must stay byte-identical — is the
one that gets commented out: the scan remembers the last `cap_drop:`
line seen before the value line, not the first. -/
theorem first_run_not_first_line_cx :
    (check_and_fix_docker_compose_for_searxng true capTwiceLines).1.getD 2 []
      = "    cap_drop:".toList ∧
    (check_and_fix_docker_compose_for_searxng true capTwiceLines).1.getD 3 []
      ≠ "    cap_drop:".toList := by
  decide

/-! ### Claims C8 and C3 (realtime health-check rewriter) -/

/-- A successful `findSub` points at an occurrence. -/
theorem findSub_leads : ∀ (pat s : List Char) (i : Nat),
    findSub pat s = some i → leadsWith pat (s.drop i) = true
  | pat, [], i, h => by
    rw [findSub] at h
    split at h
    · next hc =>
      cases h
      simpa using hc
    · exact absurd h (by simp)
  | pat, c :: t, i, h => by
    rw [findSub] at h
    split at h
    · next hc =>
      cases h
      simpa using hc
    · cases hft : findSub pat t with
      | none => rw [hft] at h; simp at h
      | some j =>
        rw [hft] at h
        simp at h
        subst h
        rw [List.drop_succ_cons]
        exact findSub_leads pat t j hft

/-- A successful `findFrom` points at an occurrence at or after the
start index. -/
theorem findFrom_leads (pat s : List Char) (n i : Nat)
    (h : findFrom pat s n = some i) :
    n ≤ i ∧ leadsWith pat (s.drop i) = true := by
  rw [findFrom] at h
  cases hfs : findSub pat (s.drop n) with
  | none => rw [hfs] at h; simp at h
  | some j =>
    rw [hfs] at h
    simp at h
    subst h
    refine ⟨by omega, ?_⟩
    have hl := findSub_leads pat (s.drop n) j hfs
    rw [List.drop_drop] at hl
    rwa [Nat.add_comm] at hl

/-- C8: the rewriter never modifies the file except in the full-trigger
case — if some trigger substring is missing, or the `healthcheck:` /
`environment:` markers cannot be located, the content is returned
byte-identical and no write occurs. -/
theorem healthcheck_rewriter_no_modify (content : List Char)
    (h : hasTriggers content = false ∨ locateSpan content = none) :
    fix_supabase_realtime_healthcheck content = (content, false) := by
  rw [fix_supabase_realtime_healthcheck]
  rcases h with h | h
  · simp [h]
  · cases ht : hasTriggers content <;> simp [h]

/-- Witness for C8 on content containing all three triggers but no
locatable `healthcheck:` marker. -/
theorem healthcheck_rewriter_no_modify_witness :
    hasTriggers ("/api/tenants/realtime-dev/health healthcheck " ++
      "realtime-dev.supabase-realtime").toList = true ∧
    locateSpan ("/api/tenants/realtime-dev/health healthcheck " ++
      "realtime-dev.supabase-realtime").toList = none ∧
    fix_supabase_realtime_healthcheck
      ("/api/tenants/realtime-dev/health healthcheck " ++
        "realtime-dev.supabase-realtime").toList
      = (("/api/tenants/realtime-dev/health healthcheck " ++
          "realtime-dev.supabase-realtime").toList, false) :=
  ⟨by decide, by decide,
   healthcheck_rewriter_no_modify _ (Or.inr (by decide))⟩

/-- C3 (amended): when all three triggers are present and both markers
are located, the rewriter substitutes every occurrence of the located
span's text by the fixed corrected block and writes the file back;
afterwards the file contains the corrected block verbatim (and hence
its literal unauthenticated HEAD-request command with timeout 5s,
interval 5s, retries 3). -/
theorem realtime_rewrite_inserts_new_block (content : List Char) (h e : Nat)
    (ht : hasTriggers content = true)
    (hloc : locateSpan content = some (h, e)) :
    fix_supabase_realtime_healthcheck content
      = (replaceAll ((content.drop h).take (e - h)) newHealthcheckL content,
         true) ∧
    hasSub newHealthcheckL
      (fix_supabase_realtime_healthcheck content).1 = true := by
  have hfix : fix_supabase_realtime_healthcheck content
      = (replaceAll ((content.drop h).take (e - h)) newHealthcheckL content,
         true) := by
    rw [fix_supabase_realtime_healthcheck]
    simp [ht, hloc]
  refine ⟨hfix, ?_⟩
  rw [hfix]
  rw [locateSpan] at hloc
  cases hfs : findSub rtNameL content with
  | none => rw [hfs] at hloc; simp at hloc
  | some n0 =>
    rw [hfs] at hloc
    simp only [Option.some_bind] at hloc
    cases hfh : findFrom hcColonL content n0 with
    | none => rw [hfh] at hloc; simp at hloc
    | some h2 =>
      rw [hfh] at hloc
      simp only [Option.some_bind] at hloc
      cases hfe : findFrom envL content h2 with
      | none => rw [hfe] at hloc; simp at hloc
      | some e2 =>
        rw [hfe] at hloc
        simp only [Option.map_some, Option.map_some', Option.some_inj,
          Prod.mk.injEq] at hloc
        obtain ⟨rfl, rfl⟩ := hloc
        have hh := (findFrom_leads hcColonL content n0 h2 hfh).2
        have he := findFrom_leads envL content h2 e2 hfe
        have hch : hcColonL = 'h' :: "ealthcheck:".toList := by decide
        have hce : envL = 'e' :: "nvironment:".toList := by decide
        obtain ⟨rest, hrest⟩ : ∃ rest, content.drop h2 = 'h' :: rest := by
          cases hd : content.drop h2 with
          | nil => rw [hd, hch] at hh; simp [leadsWith] at hh
          | cons x r2 =>
            rw [hd, hch] at hh
            simp only [leadsWith, Bool.and_eq_true, beq_iff_eq] at hh
            exact ⟨r2, by rw [hh.1.symm]⟩
        have hne : h2 ≠ e2 := by
          intro heq
          rw [← heq, hrest, hce] at he
          simp only [leadsWith, Bool.and_eq_true, beq_iff_eq] at he
          exact absurd he.2.1 (by decide)
        have hnonempty : (content.drop h2).take (e2 - h2) ≠ [] := by
          rw [hrest]
          have h1 : 1 ≤ e2 - h2 := by omega
          cases hk : e2 - h2 with
          | zero => omega
          | succ k => simp [List.take_succ_cons]
        exact hasSub_rep_replaceAll _ _ _ hnonempty
          (hasSub_drop_take content h2 (e2 - h2))

/-- The compose content of the C3 witness: the three triggers are
present and both markers are locatable; the span from `healthcheck:` to
`environment:` has offsets 31 to 77. -/
def c3wContent : List Char :=
  ("realtime-dev.supabase-realtime healthcheck: " ++
   "/api/tenants/realtime-dev/health environment:").toList

/-- Witness for the amended C3 on `c3wContent`. -/
theorem realtime_rewrite_inserts_new_block_witness :
    hasTriggers c3wContent = true ∧
    locateSpan c3wContent = some (31, 77) ∧
    (fix_supabase_realtime_healthcheck c3wContent
      = (replaceAll ((c3wContent.drop 31).take (77 - 31)) newHealthcheckL
          c3wContent, true) ∧
     hasSub newHealthcheckL
       (fix_supabase_realtime_healthcheck c3wContent).1 = true) :=
  ⟨by decide, by decide,
   realtime_rewrite_inserts_new_block c3wContent 31 77 (by decide) (by decide)⟩

/-- The compose content of the C3 counterexample: all three triggers are
present and both markers are located, but the obsolete endpoint path
lies outside the located span (after the `environment:` marker). -/
def c3cxContent : List Char :=
  ("realtime-dev.supabase-realtime\nhealthcheck:\nA\nenvironment:\n" ++
   "/api/tenants/realtime-dev/health\n").toList

/-- C3 counterexample: on `c3cxContent` the rewrite fires (all triggers
present, span located, file written), yet afterwards the file still
contains the obsolete authenticated endpoint path string, contradicting
the claim that it no longer occurs: the rewrite only replaces the span
between the markers, and the path lies outside it. -/
theorem realtime_rewrite_keeps_old_path_cx :
    hasTriggers c3cxContent = true ∧
    (fix_supabase_realtime_healthcheck c3cxContent).2 = true ∧
    hasSub oldPathL (fix_supabase_realtime_healthcheck c3cxContent).1 = true := by
  decide

/-! ### Claims C5 and C9 (`main` error propagation) -/

/-- C5 counterexample: in the world where only the secret-generation
command fails (clone succeeds, root `.env` exists, template exists, all
orchestration commands succeed), the substitution is not applied, yet
no error propagates and every subsequent step — including the hardening
toggle and the final stack start — still executes, contradicting the
claim that the entire run aborts with no subsequent step executing. -/
theorem secret_failure_run_continues_cx :
    (generate_searxng_secret_key_outcome
      ⟨false, true, true, true, false, false, false⟩).2 = false ∧
    (runMain ⟨false, true, true, true, false, false, false⟩).2 = none ∧
    Step.capToggle ∈ (runMain ⟨false, true, true, true, false, false, false⟩).1 ∧
    Step.startLocalAI ∈
      (runMain ⟨false, true, true, true, false, false, false⟩).1 := by
  decide

/-- C5 (amended): a failure of the secret-generation command is caught
inside `generate_searxng_secret_key` (the `except Exception` handler at
lines 134-143 prints remediation instructions); no exception propagates
out of the provisioning step and the subsequent hardening-toggle and
health-check steps still execute, whatever the template's presence and
the later orchestration outcomes. -/
theorem secret_failure_run_continues (sb df us ul : Bool) :
    (generate_searxng_secret_key_outcome
      ⟨false, true, sb, true, df, us, ul⟩).1 = none ∧
    Step.capToggle ∈ (runMain ⟨false, true, sb, true, df, us, ul⟩).1 ∧
    Step.healthFix ∈ (runMain ⟨false, true, sb, true, df, us, ul⟩).1 := by
  cases sb <;> cases df <;> cases us <;> cases ul <;> decide

/-- C9: when the root `.env` file is absent, `prepare_supabase_env`'s
`shutil.copyfile` raises an uncaught `FileNotFoundError` and the run
aborts before the secret-provisioning, hardening-toggle, or
health-check steps execute, whatever the rest of the environment; in
particular, when the clone succeeds, the trace is exactly
`[cloneRepo]` with the file-not-found error — the missing file is not
handled as a warn-and-skip prerequisite. -/
theorem missing_env_aborts_run (cf sb sc df us ul : Bool) :
    (runMain ⟨cf, false, sb, sc, df, us, ul⟩).2.isSome = true ∧
    Step.genSecret ∉ (runMain ⟨cf, false, sb, sc, df, us, ul⟩).1 ∧
    Step.capToggle ∉ (runMain ⟨cf, false, sb, sc, df, us, ul⟩).1 ∧
    Step.healthFix ∉ (runMain ⟨cf, false, sb, sc, df, us, ul⟩).1 ∧
    runMain ⟨false, false, sb, sc, df, us, ul⟩
      = ([Step.cloneRepo], some RunErr.fileNotFound) := by
  cases cf <;> cases sb <;> cases sc <;> cases df <;> cases us <;> cases ul <;>
    decide

end StartServices
